import Mathlib

/-!
Verification of the core data model of the personal-assistant repository
(`src/assistant/models.py`): validated fields (Name, Phone, Birthday),
contact records and their phone-list operations, the AddressBook
(normalized-key dictionary, upcoming-birthday report) and the NoteBook
(notes, tag normalization, batch tag application).

Python strings are modelled as `List Char`; Python `date` values as a
`PyDate` structure over `Nat` with explicit calendar validity; exceptions
as `Except PErr`.  Mutating methods are modelled as functions from the old
value to the new value (or an error).
-/

/-- Python strings, modelled as lists of unicode characters. -/
abbrev Str := List Char

/-- ASCII decimal digit `0`..`9` (code points 48–57). -/
def isAsciiDigit (c : Char) : Bool := 48 ≤ c.toNat && c.toNat ≤ 57

/-- Models Python `str.isdigit` on a single character.  Python accepts any
character of Unicode numeric type Digit/Decimal, which is strictly larger
than ASCII `0-9`: we model the ASCII digits plus the Arabic-Indic digit
block U+0660–U+0669 and the superscript digits U+00B2/U+00B3/U+00B9 as
representatives of the non-ASCII digits Python accepts; characters outside
these blocks are treated as non-digits (an under-approximation of the far
tail of Unicode that no theorem below depends on). -/
def pyIsDigit (c : Char) : Bool :=
  isAsciiDigit c
  || (0x660 ≤ c.toNat && c.toNat ≤ 0x669)
  || c.toNat == 0xB2 || c.toNat == 0xB3 || c.toNat == 0xB9

/-- Models Python `str.strip` whitespace detection (ASCII fragment:
space, tab, newline, carriage return, vertical tab, form feed). -/
def isPySpace (c : Char) : Bool :=
  c.toNat == 32 || c.toNat == 9 || c.toNat == 10 || c.toNat == 13
  || c.toNat == 11 || c.toNat == 12

/-- Strip leading whitespace (Python `str.lstrip()`). -/
def pyStripL (s : Str) : Str := s.dropWhile isPySpace

/-- Strip trailing whitespace (Python `str.rstrip()`). -/
def pyStripR : Str → Str
  | [] => []
  | c :: t =>
    let r := pyStripR t
    if r = [] && isPySpace c then [] else c :: r

/-- Strip surrounding whitespace (Python `str.strip()`). -/
def pyStrip (s : Str) : Str := pyStripR (pyStripL s)

/-- ASCII lower-casing of one character; models Python `str.lower` /
`str.casefold` on the ASCII fragment (full `casefold` also folds a few
non-ASCII letters such as ß, which never occur in this development). -/
def pyLowerChar (c : Char) : Char :=
  if 65 ≤ c.toNat && c.toNat ≤ 90 then Char.ofNat (c.toNat + 32) else c

/-- Models Python `str.lower()` / `str.casefold()` (ASCII fragment). -/
def pyLower (s : Str) : Str := s.map pyLowerChar

/-- The digit character for `n < 10`. -/
def digitChar (n : Nat) : Char := Char.ofNat (48 + n)

/-- Fuel-driven digit expansion (structural recursion so that concrete
values reduce): with fuel at least `n` this is the full decimal
expansion of `n`. -/
def natDigitsAux : Nat → Nat → Str
  | 0, _ => []
  | f + 1, n =>
    if n < 10 then [digitChar n]
    else natDigitsAux f (n / 10) ++ [digitChar (n % 10)]

/-- Decimal representation of a natural number, most significant digit
first (used to model Python `strftime` number rendering). -/
def natDigits (n : Nat) : Str := natDigitsAux (n + 1) n

/-- Left-pad with `'0'` to width `w` (models `%d`/`%m`/`%Y` zero padding). -/
def padZero (w : Nat) (s : Str) : Str := List.replicate (w - s.length) '0' ++ s

/-- Numeric value of a string of ASCII digits (models `int` conversion
performed by `strptime` on a matched digit group). -/
def digitsToNat (s : Str) : Nat := s.foldl (fun a c => a * 10 + (c.toNat - 48)) 0

-- ### Dates

/-- A Python `datetime.date` value: year, month, day.  (Python also bounds
years to 1..9999; see `isValidDate`.) -/
structure PyDate where
  y : Nat
  m : Nat
  d : Nat
deriving DecidableEq, Repr

/-- Gregorian leap year, as in Python's `calendar`/`datetime`. -/
def isLeap (y : Nat) : Bool := y % 4 == 0 && (y % 100 != 0 || y % 400 == 0)

/-- Days in a month of a given year (0 for an out-of-range month). -/
def daysInMonth (y m : Nat) : Nat :=
  if m == 1 then 31 else if m == 2 then (if isLeap y then 29 else 28)
  else if m == 3 then 31 else if m == 4 then 30 else if m == 5 then 31
  else if m == 6 then 30 else if m == 7 then 31 else if m == 8 then 31
  else if m == 9 then 30 else if m == 10 then 31 else if m == 11 then 30
  else if m == 12 then 31 else 0

/-- Validity of a date triple, exactly the check Python's `date`
constructor performs (`MINYEAR = 1`, `MAXYEAR = 9999`). -/
def isValidDate (dt : PyDate) : Bool :=
  1 ≤ dt.y && dt.y ≤ 9999 && 1 ≤ dt.m && dt.m ≤ 12
  && 1 ≤ dt.d && dt.d ≤ daysInMonth dt.y dt.m

/-- Days in all years strictly before year `y` (proleptic Gregorian). -/
def daysBeforeYear (y : Nat) : Nat :=
  365 * (y - 1) + (y - 1) / 4 - (y - 1) / 100 + (y - 1) / 400

/-- Days in the months of year `y` strictly before month `m`. -/
def daysBeforeMonth (y m : Nat) : Nat :=
  match m with
  | 0 => 0
  | mm + 1 => if mm == 0 then 0 else daysBeforeMonth y mm + daysInMonth y mm

/-- Python `date.toordinal`: day count with 0001-01-01 ↦ 1. -/
def toOrdinal (dt : PyDate) : Nat :=
  daysBeforeYear dt.y + daysBeforeMonth dt.y dt.m + dt.d

/-- Python `date.weekday()`: Monday = 0 … Sunday = 6
(0001-01-01 is a Monday in the proleptic Gregorian calendar). -/
def weekday (dt : PyDate) : Nat := (toOrdinal dt + 6) % 7

/-- Python `<` on dates: lexicographic on (year, month, day). -/
def dateLt (a b : PyDate) : Bool :=
  a.y < b.y || (a.y == b.y && (a.m < b.m || (a.m == b.m && a.d < b.d)))

/-- The next calendar day (used to model adding a `timedelta`). -/
def succDate (dt : PyDate) : PyDate :=
  if dt.d < daysInMonth dt.y dt.m then ⟨dt.y, dt.m, dt.d + 1⟩
  else if dt.m < 12 then ⟨dt.y, dt.m + 1, 1⟩
  else ⟨dt.y + 1, 1, 1⟩

/-- `dt + timedelta(days = n)` for a non-negative `n`. -/
def addDays (dt : PyDate) : Nat → PyDate
  | 0 => dt
  | n + 1 => succDate (addDays dt n)

/-- Python `date.replace(year = y)`: keeps month and day, revalidates, and
raises `ValueError` (here: `none`) when the result is not a valid date —
notably for Feb 29 projected onto a non-leap year. -/
def replaceYear (dt : PyDate) (y : Nat) : Option PyDate :=
  let c : PyDate := ⟨y, dt.m, dt.d⟩
  if isValidDate c then some c else none

/-- `strftime("%d.%m.%Y")`: zero-padded day and month to width 2,
year to width 4. -/
def formatDMY (dt : PyDate) : Str :=
  padZero 2 (natDigits dt.d) ++ ['.'] ++ padZero 2 (natDigits dt.m)
    ++ ['.'] ++ padZero 4 (natDigits dt.y)

/-- `strptime(s, "%d.%m.%Y").date()` (ASCII-digit fragment): the day and
month are maximal digit runs of 1–2 digits with values in 1..31 / 1..12
(the value ranges enforced by the `%d`/`%m` regular expressions), the year
is a maximal digit run of exactly 4 digits, the runs are separated by
literal dots with nothing left over, and the resulting triple must pass
the `date` constructor's validity check. -/
def strptimeDMY (s : Str) : Option PyDate :=
  let ds := s.takeWhile isAsciiDigit
  match s.dropWhile isAsciiDigit with
  | c1 :: r1 =>
    if c1 == '.' then
      let ms := r1.takeWhile isAsciiDigit
      match r1.dropWhile isAsciiDigit with
      | c2 :: r2 =>
        if c2 == '.' then
          let ys := r2.takeWhile isAsciiDigit
          if r2.dropWhile isAsciiDigit = []
              && 1 ≤ ds.length && ds.length ≤ 2
              && 1 ≤ ms.length && ms.length ≤ 2 && ys.length == 4 then
            let c : PyDate := ⟨digitsToNat ys, digitsToNat ms, digitsToNat ds⟩
            if 1 ≤ c.d && c.d ≤ 31 && 1 ≤ c.m && c.m ≤ 12 && isValidDate c then
              some c
            else none
          else none
        else none
      | [] => none
    else none
  | [] => none

-- ### Exceptions

/-- Decidable equality for `Except` results, so that concrete runs of the
modelled operations can be checked by `decide`. -/
instance instDecEqExcept {ε α : Type} [DecidableEq ε] [DecidableEq α] :
    DecidableEq (Except ε α) := fun a b =>
  match a, b with
  | .error x, .error y =>
    decidable_of_iff (x = y) ⟨fun h => by rw [h], fun h => by cases h; rfl⟩
  | .error _, .ok _ => isFalse fun h => Except.noConfusion h
  | .ok _, .error _ => isFalse fun h => Except.noConfusion h
  | .ok x, .ok y =>
    decidable_of_iff (x = y) ⟨fun h => by rw [h], fun h => by cases h; rfl⟩

/-- The exception kinds of `models.py` that the modelled operations can
raise, plus Python's built-in `ValueError` (raised by `date.replace` on an
invalid projection). -/
inductive PErr where
  | invalidName
  | invalidPhone
  | invalidBirthday
  | invalidTag
  | phoneNotFound
  | contactNotFound
  | noteNotFound
  | valueError
deriving DecidableEq, Repr

-- ### Validated fields

/-- `Field.__str__` for string-valued fields: `str(self._value)`. -/
def fieldStr (v : Str) : Str := v

/-- `Name._validate`: the stripped value must have length > 2; the
stripped value is stored. -/
def nameValidate (value : Str) : Except PErr Str :=
  if (pyStrip value).length ≤ 2 then .error .invalidName else .ok (pyStrip value)

/-- `Phone._validate`: `value.isdigit() and len(value) == 10`. -/
def phoneValidate (value : Str) : Except PErr Str :=
  if value.all pyIsDigit && value.length == 10 then .ok value
  else .error .invalidPhone

/-- `Birthday._validate` relative to `today`: `None`/empty is the unset
state; otherwise `strptime(value.strip(), "%d.%m.%Y")` (a `ValueError`
becomes `InvalidBirthdayFormatError`), and a parsed date strictly after
today is rejected. -/
def birthdayValidate (today : PyDate) (value : Option Str) : Except PErr (Option PyDate) :=
  match value with
  | none => .ok none
  | some s =>
    if s = [] then .ok none
    else
      match strptimeDMY (pyStrip s) with
      | none => .error .invalidBirthday
      | some parsed =>
        if dateLt today parsed then .error .invalidBirthday
        else .ok (some parsed)

/-- `Birthday.__str__`: `strftime("%d.%m.%Y")` when set, else `""`. -/
def birthdayStr (b : Option PyDate) : Str :=
  match b with
  | some dt => formatDMY dt
  | none => []

-- ### Record

/-- A contact `Record`: validated name, list of validated phone strings,
optional birthday field (`Option` for the absent `Birthday` attribute,
whose value is itself `Option` for the unset state), optional email and
address. -/
structure Record where
  name : Str
  phones : List Str
  birthday : Option (Option PyDate)
  email : Option Str
  address : Option Str
deriving DecidableEq, Repr

/-- `Record.__init__(name)`: validates the name; all other fields start
absent. -/
def recordInit (name : Str) : Except PErr Record :=
  (nameValidate name).map fun n => ⟨n, [], none, none, none⟩

/-- `Record.find_phone`: first phone whose value equals the query. -/
def findPhone (r : Record) (phoneNumber : Str) : Option Str :=
  r.phones.find? (fun p => p == phoneNumber)

/-- `Record.add_phone`: no-op when the number is already present,
otherwise validate and append. -/
def addPhone (r : Record) (phoneNumber : Str) : Except PErr Record :=
  match findPhone r phoneNumber with
  | some _ => .ok r
  | none => (phoneValidate phoneNumber).map fun v =>
      { r with phones := r.phones ++ [v] }

/-- Replace the first occurrence of `old` by `new` in a list. -/
def replaceFirst (l : List Str) (old new : Str) : List Str :=
  match l with
  | [] => []
  | x :: xs => if x == old then new :: xs else x :: replaceFirst xs old new

/-- `Record.edit_phone`: find the phone equal to `old` (else
`PhoneNotFoundError`) and overwrite its value with `new` after
re-validation; no duplicate check is performed. -/
def editPhone (r : Record) (old new : Str) : Except PErr Record :=
  match findPhone r old with
  | none => .error .phoneNotFound
  | some _ => (phoneValidate new).map fun v =>
      { r with phones := replaceFirst r.phones old v }

/-- Remove the first occurrence of `x` from a list (Python `list.remove`
on the object returned by `find_phone`). -/
def removeFirst (l : List Str) (x : Str) : List Str :=
  match l with
  | [] => []
  | a :: as_ => if a == x then as_ else a :: removeFirst as_ x

/-- `Record.delete_phone`: remove the phone equal to the number, or fail
with `PhoneNotFoundError`. -/
def deletePhone (r : Record) (phoneNumber : Str) : Except PErr Record :=
  match findPhone r phoneNumber with
  | none => .error .phoneNotFound
  | some _ => .ok { r with phones := removeFirst r.phones phoneNumber }

/-- `Record.add_birthday(date_str)` relative to `today`: replaces the
birthday field with a freshly validated `Birthday`. -/
def addBirthday (today : PyDate) (r : Record) (dateStr : Option Str) : Except PErr Record :=
  (birthdayValidate today dateStr).map fun b => { r with birthday := some b }

/-- A phone-list operation on a record (the operations quantified over by
the phone-uniqueness claim). -/
inductive PhoneOp where
  | add (p : Str)
  | edit (old new : Str)
  | del (p : Str)
deriving DecidableEq, Repr

/-- Whether a phone operation is an `edit_phone`. -/
def PhoneOp.isEdit : PhoneOp → Bool
  | .edit _ _ => true
  | _ => false

/-- Apply one phone operation; a raised exception leaves the record
unchanged (each of the three methods mutates only after its checks). -/
def applyPhoneOp (r : Record) : PhoneOp → Record
  | .add p => match addPhone r p with | .ok r' => r' | .error _ => r
  | .edit old new => match editPhone r old new with | .ok r' => r' | .error _ => r
  | .del p => match deletePhone r p with | .ok r' => r' | .error _ => r

/-- Apply a sequence of phone operations from left to right. -/
def applyPhoneOps (r : Record) (ops : List PhoneOp) : Record :=
  ops.foldl applyPhoneOp r

-- ### AddressBook

/-- An `AddressBook` (a `UserDict`): an insertion-ordered association list
from normalized name keys to records, modelling a Python `dict`. -/
abbrev AddressBook := List (Str × Record)

/-- `AddressBook._key`: `name.strip().casefold()`. -/
def abKey (name : Str) : Str := pyLower (pyStrip name)

/-- Python `dict` insertion: overwrite the value at an existing key in
place, else append the new pair at the end. -/
def dictInsert {α : Type} (l : List (Str × α)) (k : Str) (v : α) : List (Str × α) :=
  match l with
  | [] => [(k, v)]
  | (k', v') :: rest =>
    if k' = k then (k', v) :: rest else (k', v') :: dictInsert rest k v

/-- Python `dict.get`. -/
def dictLookup {α : Type} (l : List (Str × α)) (k : Str) : Option α :=
  (l.find? (fun e => e.1 = k)).map (fun e => e.2)

/-- `AddressBook.add_record`: insert under the normalized name key,
silently overwriting an existing entry. -/
def addRecord (book : AddressBook) (record : Record) : AddressBook :=
  dictInsert book (abKey (fieldStr record.name)) record

/-- `AddressBook.find`: normalized-key lookup, `None` when absent. -/
def abFind (book : AddressBook) (name : Str) : Option Record :=
  dictLookup book (abKey name)

-- ### Notes

/-- A `Note`: immutable title, mutable content, and a tag set.  The
Python `set` of tags is modelled as a duplicate-free list in insertion
order (only membership and cardinality matter below). -/
structure Note where
  title : Str
  content : Str
  tags : List Str
deriving DecidableEq, Repr

/-- `Note.add_tag` normalization: `tag.strip().lower().lstrip('#')`
(strip surrounding whitespace, lower-case, then drop every leading `#`). -/
def cleanTag (tag : Str) : Str :=
  (pyLower (pyStrip tag)).dropWhile (fun c => c == '#')

/-- Set insertion for the modelled tag set: no-op when already present. -/
def insertTag (tags : List Str) (t : Str) : List Str :=
  if t ∈ tags then tags else tags ++ [t]

/-- `Note.add_tag`: normalize; fail with `InvalidTagFormatError` when the
normalized tag is empty or contains a space character; otherwise insert
into the tag set. -/
def noteAddTag (n : Note) (tag : Str) : Except PErr Note :=
  let cleaned := cleanTag tag
  if cleaned = [] ∨ ' ' ∈ cleaned then .error .invalidTag
  else .ok { n with tags := insertTag n.tags cleaned }

-- ### NoteBook

/-- A `NoteBook` (a `UserDict`): insertion-ordered association list from
normalized title keys to notes. -/
abbrev NoteBook := List (Str × Note)

/-- `NoteBook._key`: `title.strip().casefold()`. -/
def nbKey (title : Str) : Str := pyLower (pyStrip title)

/-- `NoteBook.add_note`: insert under the normalized title key,
overwriting an existing entry (upsert). -/
def addNote (book : NoteBook) (note : Note) : NoteBook :=
  dictInsert book (nbKey note.title) note

/-- `NoteBook.find_note_by_id`: normalized-key lookup. -/
def findNoteById (book : NoteBook) (title : Str) : Option Note :=
  dictLookup book (nbKey title)

/-- The `for tag in tags: note.add_tag(tag)` loop of
`NoteBook.add_tag_to_note`: tags are applied left to right, and the first
invalid tag aborts the loop with the exception while keeping every tag
already applied (the note is mutated in place). -/
def addTagsLoop (n : Note) : List Str → Except PErr Unit × Note
  | [] => (.ok (), n)
  | t :: ts =>
    match noteAddTag n t with
    | .error e => (.error e, n)
    | .ok n' => addTagsLoop n' ts

/-- `NoteBook.add_tag_to_note`: locate the note (else
`NoteNotFoundError`, book unchanged), then run the tag loop; the book
keeps the partially updated note even when the loop raises. -/
def addTagToNote (book : NoteBook) (title : Str) (tags : List Str) :
    Except PErr Unit × NoteBook :=
  match findNoteById book title with
  | none => (.error .noteNotFound, book)
  | some n =>
    let r := addTagsLoop n tags
    (r.1, dictInsert book (nbKey title) r.2)

-- ### Upcoming birthdays

/-- The birthday value actually set on a record:
`record.birthday and record.birthday.value`. -/
def bdayVal (r : Record) : Option PyDate := r.birthday.join

/-- Lines 241–243 of `models.py`: project the stored birthday onto the
current year, and onto the next year when the current-year projection is
strictly before today; `none` models the uncaught `ValueError` from
`date.replace` (Feb 29 onto a non-leap year). -/
def birthdayProjection (today b : PyDate) : Option PyDate :=
  match replaceYear b today.y with
  | none => none
  | some p => if dateLt p today then replaceYear p (today.y + 1) else some p

/-- The weekend rollover applied to the projected date before display:
Saturday ↦ +2 days, Sunday ↦ +1 day. -/
def rolloverDate (p : PyDate) : PyDate :=
  if weekday p == 5 then addDays p 2
  else if weekday p == 6 then addDays p 1
  else p

/-- The record-scanning loop of `get_upcoming_birthdays`: records without
a set birthday are skipped; otherwise the birthday is projected (a
projection failure raises, aborting the whole call), the day-delta from
today is computed from the pre-rollover projected date, and records with
`0 <= delta <= days` contribute `(name, rolled-over display date)`. -/
def collectUpcoming (today : PyDate) (days : Int) : List Record → Except PErr (List (Str × PyDate))
  | [] => .ok []
  | r :: rs =>
    match bdayVal r with
    | none => collectUpcoming today days rs
    | some b =>
      match birthdayProjection today b with
      | none => .error .valueError
      | some p =>
        let delta : Int := (toOrdinal p : Int) - (toOrdinal today : Int)
        if 0 ≤ delta ∧ delta ≤ days then
          (collectUpcoming today days rs).map (fun l => (fieldStr r.name, rolloverDate p) :: l)
        else collectUpcoming today days rs

/-- The comparison used by the report's sort: display entries ordered by
the calendar order (ordinal) of their display date. -/
def keyLe (a b : Str × PyDate) : Prop := toOrdinal a.2 ≤ toOrdinal b.2

instance : DecidableRel keyLe := fun a b => Nat.decLe (toOrdinal a.2) (toOrdinal b.2)

/-- The sort of `get_upcoming_birthdays`: Python's stable `sorted` keyed
by `strptime(display_string, "%d.%m.%Y")`; since the display string is the
`strftime` of the display date, the key order is the calendar order of the
display dates (compared via their ordinals). -/
def sortUpcoming (l : List (Str × PyDate)) : List (Str × PyDate) :=
  List.insertionSort keyLe l

/-- One output line: `f"{name}: {bday_str}"`. -/
def upcomingLine (e : Str × PyDate) : Str :=
  e.1 ++ (": ".data) ++ formatDMY e.2

/-- `AddressBook.get_upcoming_birthdays(days)` at a given `today`: scan
the records, and either report the sentinel or render the header plus one
line per entry (each followed by a newline) and strip the result. -/
def getUpcomingBirthdays (book : AddressBook) (days : Int) (today : PyDate) :
    Except PErr Str :=
  (collectUpcoming today days (book.map (fun e => e.2))).map fun up =>
    if up = [] then ("No upcoming birthdays.".data)
    else pyStrip (("Upcoming birthdays:\n".data)
      ++ ((sortUpcoming up).map (fun e => upcomingLine e ++ ['\n'])).flatten)

-- ### Helper lemmas: stripping

lemma pyStripL_cons_of_nonspace {c : Char} {t : Str} (h : isPySpace c = false) :
    pyStripL (c :: t) = c :: t := by
  simp [pyStripL, List.dropWhile_cons, h]

lemma dropWhile_head_false {p : Char → Bool} {c : Char} {t : Str} :
    ∀ {l : Str}, l.dropWhile p = c :: t → p c = false := by
  intro l
  induction l with
  | nil => intro h; simp at h
  | cons a l ih =>
    intro h
    rw [List.dropWhile_cons] at h
    by_cases hp : p a = true
    · simp [hp] at h; exact ih h
    · simp [hp] at h; rw [← h.1]; simpa using hp

lemma pyStripR_of_all_nonspace : ∀ {s : Str}, (∀ c ∈ s, isPySpace c = false) →
    pyStripR s = s := by
  intro s
  induction s with
  | nil => intro _; rfl
  | cons c t ih =>
    intro h
    have hc : isPySpace c = false := h c (by simp)
    have ht := ih (fun x hx => h x (by simp [hx]))
    simp [pyStripR, ht, hc]

lemma pyStripL_of_all_nonspace {s : Str} (h : ∀ c ∈ s, isPySpace c = false) :
    pyStripL s = s := by
  cases s with
  | nil => rfl
  | cons c t => exact pyStripL_cons_of_nonspace (h c (by simp))

lemma pyStrip_of_all_nonspace {s : Str} (h : ∀ c ∈ s, isPySpace c = false) :
    pyStrip s = s := by
  rw [pyStrip, pyStripL_of_all_nonspace h, pyStripR_of_all_nonspace h]

lemma pyStripR_cons_shape (c : Char) (t : Str) :
    pyStripR (c :: t) = [] ∨ pyStripR (c :: t) = c :: pyStripR t := by
  by_cases h : (pyStripR t = [] && isPySpace c) = true
  · left; simp [pyStripR, h]
  · right; simp only [pyStripR]; rw [if_neg]; simpa using h

lemma pyStripR_idem : ∀ (s : Str), pyStripR (pyStripR s) = pyStripR s := by
  intro s
  induction s with
  | nil => rfl
  | cons c t ih =>
    rcases pyStripR_cons_shape c t with h | h
    · rw [h]; rfl
    · rw [h]
      simp only [pyStripR, ih]
      have : ¬(pyStripR t = [] ∧ isPySpace c = true) := by
        intro hh
        have : pyStripR (c :: t) = [] := by simp [pyStripR, hh.1, hh.2]
        rw [h] at this; exact List.noConfusion this
      rw [if_neg (by simpa using this)]

lemma pyStripL_pyStrip (s : Str) : pyStripL (pyStrip s) = pyStrip s := by
  rw [pyStrip]
  cases hL : pyStripL s with
  | nil => rfl
  | cons c t =>
    have hc : isPySpace c = false := dropWhile_head_false hL
    rcases pyStripR_cons_shape c t with h | h
    · rw [h]; rfl
    · rw [h]; exact pyStripL_cons_of_nonspace hc

lemma pyStrip_idem (s : Str) : pyStrip (pyStrip s) = pyStrip s := by
  conv_lhs => rw [pyStrip, pyStripL_pyStrip]
  rw [pyStrip, pyStripR_idem]

lemma abKey_pyStrip (s : Str) : abKey (pyStrip s) = abKey s := by
  rw [abKey, abKey, pyStrip_idem]

-- ### Helper lemmas: the dictionary model

lemma dictLookup_cons {α : Type} (k0 : Str) (v0 : α) (rest : List (Str × α))
    (k : Str) : dictLookup ((k0, v0) :: rest) k =
      if k0 = k then some v0 else dictLookup rest k := by
  by_cases h : k0 = k
  · subst h
    rw [dictLookup, List.find?_cons_of_pos _ (by simp), if_pos rfl]
    rfl
  · rw [dictLookup, List.find?_cons_of_neg _ (by simpa using h), if_neg h]
    rfl

lemma dictLookup_insert_self {α : Type} (l : List (Str × α)) (k : Str) (v : α) :
    dictLookup (dictInsert l k v) k = some v := by
  induction l with
  | nil => rw [dictInsert, dictLookup_cons, if_pos rfl]
  | cons e rest ih =>
    cases e with
    | mk k0 v0 =>
      by_cases h : k0 = k
      · rw [dictInsert, if_pos h, dictLookup_cons, if_pos h]
      · rw [dictInsert, if_neg h, dictLookup_cons, if_neg h]
        exact ih

lemma dictLookup_insert_ne {α : Type} (l : List (Str × α)) {k k' : Str} (v : α)
    (h : k' ≠ k) : dictLookup (dictInsert l k v) k' = dictLookup l k' := by
  induction l with
  | nil =>
    rw [dictInsert, dictLookup_cons, if_neg (fun hh => h hh.symm)]
  | cons e rest ih =>
    cases e with
    | mk k0 v0 =>
      by_cases h0 : k0 = k
      · subst h0
        rw [dictInsert, if_pos rfl, dictLookup_cons, dictLookup_cons,
          if_neg (fun hh => h hh.symm), if_neg (fun hh => h hh.symm)]
      · rw [dictInsert, if_neg h0, dictLookup_cons, dictLookup_cons]
        by_cases h1 : k0 = k'
        · rw [if_pos h1, if_pos h1]
        · rw [if_neg h1, if_neg h1]; exact ih

lemma length_dictInsert {α : Type} (l : List (Str × α)) (k : Str) (v : α) :
    (dictInsert l k v).length =
      if k ∈ l.map Prod.fst then l.length else l.length + 1 := by
  induction l with
  | nil => simp [dictInsert]
  | cons e rest ih =>
    cases e with
    | mk k0 v0 =>
      by_cases h0 : k0 = k
      · subst h0
        have hmem : k0 ∈ List.map Prod.fst ((k0, v0) :: rest) := by
          rw [List.map_cons]
          exact List.mem_cons_self k0 _
        rw [dictInsert, if_pos rfl, if_pos hmem]
        rfl
      · simp only [dictInsert, if_neg h0, List.length_cons, ih, List.map_cons,
          List.mem_cons]
        have hk0 : ¬ k = k0 := fun hh => h0 hh.symm
        by_cases hm : k ∈ rest.map Prod.fst
        · simp [hm]
        · simp [hm, hk0]

lemma dictLookup_none_of_absent {α : Type} {l : List (Str × α)} {k : Str}
    (h : ∀ p ∈ l, p.1 ≠ k) : dictLookup l k = none := by
  induction l with
  | nil => rfl
  | cons e rest ih =>
    cases e with
    | mk k0 v0 =>
      rw [dictLookup_cons, if_neg (h (k0, v0) (by simp))]
      exact ih (fun p hp => h p (by simp [hp]))

lemma key_mem_dictInsert {α : Type} (l : List (Str × α)) (k : Str) (v : α) :
    k ∈ (dictInsert l k v).map Prod.fst := by
  induction l with
  | nil => simp [dictInsert]
  | cons e rest ih =>
    cases e with
    | mk k0 v0 =>
      by_cases h : k0 = k
      · subst h
        rw [dictInsert, if_pos rfl, List.map_cons]
        exact List.mem_cons_self k0 _
      · rw [dictInsert, if_neg h, List.map_cons]
        exact List.mem_cons_of_mem k0 ih

lemma recordInit_fields {name : Str} {r : Record} (h : recordInit name = .ok r) :
    r.name = pyStrip name ∧ r.phones = [] := by
  rw [recordInit, nameValidate] at h
  by_cases hc : (pyStrip name).length ≤ 2
  · rw [if_pos hc] at h
    exact absurd h (by simp [Except.map])
  · rw [if_neg hc] at h
    simp only [Except.map] at h
    cases h
    exact ⟨rfl, rfl⟩

-- ### Claim C6: add_record upserts under the normalized name key

/-- C6: `add_record` stores the record under the normalized (trimmed,
case-folded) form of its name: after the call, lookup by that key (and
`find` on the raw name) yields the record, any previously stored record
under the same key is silently overwritten (no error is possible — the
operation is total), entries under every other key are untouched, and the
book's size grows exactly when the key was absent. -/
theorem C6_addRecord_upsert (book : AddressBook) (r : Record) :
    dictLookup (addRecord book r) (abKey r.name) = some r ∧
    abFind (addRecord book r) r.name = some r ∧
    (addRecord book r).length =
      (if abKey r.name ∈ book.map Prod.fst then book.length else book.length + 1) ∧
    (∀ k : Str, k ≠ abKey r.name →
      dictLookup (addRecord book r) k = dictLookup book k) := by
  refine ⟨?_, ?_, ?_, ?_⟩
  · exact dictLookup_insert_self book (abKey r.name) r
  · exact dictLookup_insert_self book (abKey r.name) r
  · exact length_dictInsert book (abKey r.name) r
  · intro k hk
    exact dictLookup_insert_ne book r hk

/-- Witness for C6 at a concrete one-record book. -/
theorem C6_addRecord_upsert_witness :
    dictLookup (addRecord [] ⟨("Alice".data), [], none, none, none⟩)
        (abKey ("Alice".data)) = some ⟨("Alice".data), [], none, none, none⟩ ∧
    abFind (addRecord [] ⟨("Alice".data), [], none, none, none⟩) ("Alice".data)
      = some ⟨("Alice".data), [], none, none, none⟩ ∧
    (addRecord [] ⟨("Alice".data), [], none, none, none⟩).length
      = (if abKey ("Alice".data) ∈ ([] : AddressBook).map Prod.fst then 0 else 0 + 1) ∧
    (∀ k : Str, k ≠ abKey ("Alice".data) →
      dictLookup (addRecord [] ⟨("Alice".data), [], none, none, none⟩) k
        = dictLookup ([] : AddressBook) k) :=
  C6_addRecord_upsert [] ⟨("Alice".data), [], none, none, none⟩

-- ### Claim C7: add_note is an upsert

/-- C7: adding two notes whose titles normalize to the same key leaves
exactly one entry under that key, holding the second note (its content and
tags), and the collection size does not grow on the re-add. -/
theorem C7_addNote_upsert (book : NoteBook) (n1 n2 : Note)
    (h : nbKey n1.title = nbKey n2.title) :
    dictLookup (addNote (addNote book n1) n2) (nbKey n2.title) = some n2 ∧
    (addNote (addNote book n1) n2).length = (addNote book n1).length := by
  constructor
  · exact dictLookup_insert_self (addNote book n1) (nbKey n2.title) n2
  · rw [addNote, length_dictInsert, if_pos]
    rw [addNote, ← h]
    exact key_mem_dictInsert book (nbKey n1.title) n1

/-- Witness for C7: re-adding a note titled `"Meeting"` (normalized key
`"meeting"`) with new content and tags. -/
theorem C7_addNote_upsert_witness :
    dictLookup
        (addNote (addNote [] ⟨("Meeting".data), ("Discuss Q4".data), []⟩)
          ⟨(" meeting ".data), ("New text".data), [("work".data)]⟩)
        (nbKey (" meeting ".data))
      = some ⟨(" meeting ".data), ("New text".data), [("work".data)]⟩ ∧
    (addNote (addNote [] ⟨("Meeting".data), ("Discuss Q4".data), []⟩)
        ⟨(" meeting ".data), ("New text".data), [("work".data)]⟩).length
      = (addNote [] ⟨("Meeting".data), ("Discuss Q4".data), []⟩).length :=
  C7_addNote_upsert [] ⟨("Meeting".data), ("Discuss Q4".data), []⟩
    ⟨(" meeting ".data), ("New text".data), [("work".data)]⟩ (by decide)

-- ### Claim C8: find is case- and whitespace-insensitive

/-- C8: for a record constructed from a raw name, any query that trims and
case-folds to the same key finds the record after `add_record`; a query
whose normalized form matches no stored key yields `None` rather than an
error. -/
theorem C8_find_insensitive (book : AddressBook) (name q : Str) (r : Record)
    (hinit : recordInit name = .ok r) (hq : abKey q = abKey name) :
    abFind (addRecord book r) q = some r ∧
    (∀ book2 : AddressBook, (∀ p ∈ book2, p.1 ≠ abKey q) → abFind book2 q = none) := by
  constructor
  · have hname : r.name = pyStrip name := (recordInit_fields hinit).1
    have hkey : abKey r.name = abKey q := by
      rw [hname, abKey_pyStrip, hq]
    rw [abFind, ← hkey]
    exact dictLookup_insert_self book (abKey r.name) r
  · intro book2 habs
    exact dictLookup_none_of_absent habs

/-- Witness for C8: a record created as `" Alice "` is found by
`find("alice")`, and lookup in the empty book returns `None`. -/
theorem C8_find_insensitive_witness :
    abFind (addRecord [] ⟨("Alice".data), [], none, none, none⟩) ("alice".data)
      = some ⟨("Alice".data), [], none, none, none⟩ ∧
    (∀ book2 : AddressBook, (∀ p ∈ book2, p.1 ≠ abKey ("alice".data)) →
      abFind book2 ("alice".data) = none) :=
  C8_find_insensitive [] (" Alice ".data) ("alice".data)
    ⟨("Alice".data), [], none, none, none⟩ (by decide) (by decide)

-- ### Claim C5: tag normalization and validation

lemma mem_insertTag (ts : List Str) (c : Str) : c ∈ insertTag ts c := by
  rw [insertTag]
  by_cases h : c ∈ ts
  · rw [if_pos h]; exact h
  · rw [if_neg h]; simp

lemma insertTag_idem (ts : List Str) (c : Str) :
    insertTag (insertTag ts c) c = insertTag ts c := by
  rw [insertTag, if_pos (mem_insertTag ts c)]

lemma count_of_nodup_mem : ∀ {ts : List Str} {c : Str}, ts.Nodup → c ∈ ts →
    ts.count c = 1 := by
  intro ts
  induction ts with
  | nil => intro c _ hm; cases hm
  | cons a t ih =>
    intro c hnd hm
    rw [List.nodup_cons] at hnd
    by_cases hac : a = c
    · subst hac
      rw [List.count_cons_self, List.count_eq_zero_of_not_mem hnd.1]
    · have hct : c ∈ t := by
        rcases List.mem_cons.mp hm with h1 | h1
        · exact absurd h1.symm hac
        · exact h1
      rw [List.count_cons_of_ne (fun hh => hac hh.symm)]
      exact ih hnd.2 hct

lemma count_insertTag_of_nodup (ts : List Str) (c : Str) (h : ts.Nodup) :
    (insertTag ts c).count c = 1 := by
  rw [insertTag]
  by_cases hm : c ∈ ts
  · rw [if_pos hm]
    exact count_of_nodup_mem h hm
  · rw [if_neg hm, List.count_append]
    rw [List.count_eq_zero_of_not_mem hm]
    simp

/-- C5 (amended): `add_tag` normalizes by stripping surrounding
whitespace, lower-casing, and dropping the leading `#` markers; it fails
with `InvalidTagFormatError` exactly when the normalized result is empty
or contains a space character U+0020 (other whitespace, e.g. a tab, is
accepted); otherwise the normalized tag is inserted into the tag set
idempotently, so two adds with the same normalized form leave a single
copy. -/
theorem C5_addTag_normalization (n : Note) (tag : Str) :
    (noteAddTag n tag = .error .invalidTag ↔
      (cleanTag tag = [] ∨ ' ' ∈ cleanTag tag)) ∧
    (¬(cleanTag tag = [] ∨ ' ' ∈ cleanTag tag) →
      noteAddTag n tag = .ok { n with tags := insertTag n.tags (cleanTag tag) } ∧
      cleanTag tag ∈ insertTag n.tags (cleanTag tag) ∧
      (∀ u : Str, cleanTag u = cleanTag tag →
        noteAddTag { n with tags := insertTag n.tags (cleanTag tag) } u
          = .ok { n with tags := insertTag n.tags (cleanTag tag) }) ∧
      (n.tags.Nodup →
        (insertTag n.tags (cleanTag tag)).count (cleanTag tag) = 1)) := by
  constructor
  · constructor
    · intro h
      by_contra hv
      rw [noteAddTag] at h
      rw [if_neg hv] at h
      exact Except.noConfusion h
    · intro hv
      rw [noteAddTag, if_pos hv]
  · intro hv
    refine ⟨?_, mem_insertTag n.tags (cleanTag tag), ?_, ?_⟩
    · rw [noteAddTag, if_neg hv]
    · intro u hu
      rw [noteAddTag]
      rw [hu, if_neg hv]
      simp only [insertTag_idem]
    · intro hnd
      exact count_insertTag_of_nodup n.tags (cleanTag tag) hnd

/-- Witness for C5 at the spec's example: tag `"#Work"` on a fresh note
(normalizes to `"work"`; a second `add_tag("work")` leaves the set
unchanged). -/
theorem C5_addTag_normalization_witness :
    (noteAddTag ⟨("T1".data), ("c".data), []⟩ ("#Work".data) = .error .invalidTag ↔
      (cleanTag ("#Work".data) = [] ∨ ' ' ∈ cleanTag ("#Work".data))) ∧
    (¬(cleanTag ("#Work".data) = [] ∨ ' ' ∈ cleanTag ("#Work".data)) →
      noteAddTag ⟨("T1".data), ("c".data), []⟩ ("#Work".data)
        = .ok { title := ("T1".data), content := ("c".data),
                tags := insertTag [] (cleanTag ("#Work".data)) } ∧
      cleanTag ("#Work".data) ∈ insertTag [] (cleanTag ("#Work".data)) ∧
      (∀ u : Str, cleanTag u = cleanTag ("#Work".data) →
        noteAddTag { title := ("T1".data), content := ("c".data),
                     tags := insertTag [] (cleanTag ("#Work".data)) } u
          = .ok { title := ("T1".data), content := ("c".data),
                  tags := insertTag [] (cleanTag ("#Work".data)) }) ∧
      (([] : List Str).Nodup →
        (insertTag [] (cleanTag ("#Work".data))).count (cleanTag ("#Work".data)) = 1)) :=
  C5_addTag_normalization ⟨("T1".data), ("c".data), []⟩ ("#Work".data)

/-- Counterexample to C5 as stated: the tag `"a\tb"` normalizes to itself,
contains internal whitespace (a tab), yet `add_tag` accepts it — the code
only rejects the space character U+0020, not all whitespace. -/
theorem C5_counterexample :
    cleanTag ("a\tb".data) = ("a\tb".data) ∧
    '\t' ∈ cleanTag ("a\tb".data) ∧
    isPySpace '\t' = true ∧
    noteAddTag ⟨("T1".data), ("c".data), []⟩ ("a\tb".data)
      = .ok ⟨("T1".data), ("c".data), [("a\tb".data)]⟩ := by
  refine ⟨by decide, by decide, by decide, by decide⟩

-- ### Claim C3: phone validation

lemma all_pyIsDigit_of_all_ascii {s : Str} (h : s.all isAsciiDigit = true) :
    s.all pyIsDigit = true := by
  rw [List.all_eq_true] at h ⊢
  intro c hc
  have hd := h c hc
  rw [pyIsDigit]
  simp only [Bool.or_eq_true]
  exact Or.inl (Or.inl (Or.inl (Or.inl hd)))

/-- C3 (amended): `Phone` accepts exactly the strings of length 10 whose
characters all satisfy Python's `str.isdigit` — in particular every string
of 10 ASCII digits is accepted and renders back to itself — and rejects
everything else with `InvalidPhoneFormatError`.  The spec's "ASCII digits"
is too narrow: `str.isdigit` also accepts non-ASCII Unicode digits. -/
theorem C3_phone_validation (s : Str) :
    (s.all isAsciiDigit = true → s.all pyIsDigit = true) ∧
    (s.length = 10 ∧ s.all pyIsDigit = true →
      phoneValidate s = .ok s ∧ fieldStr s = s) ∧
    (¬(s.length = 10 ∧ s.all pyIsDigit = true) →
      phoneValidate s = .error .invalidPhone) := by
  refine ⟨fun h => all_pyIsDigit_of_all_ascii h, ?_, ?_⟩
  · rintro ⟨hlen, hall⟩
    constructor
    · rw [phoneValidate, if_pos]
      rw [hall, hlen]
      rfl
    · rfl
  · intro hneg
    rw [phoneValidate, if_neg]
    intro hc
    rw [Bool.and_eq_true] at hc
    exact hneg ⟨by simpa using hc.2, hc.1⟩

/-- Witness for C3 at a concrete valid 10-digit number. -/
theorem C3_phone_validation_witness :
    (("0501234567".data).all isAsciiDigit = true →
      ("0501234567".data).all pyIsDigit = true) ∧
    (("0501234567".data).length = 10 ∧ ("0501234567".data).all pyIsDigit = true →
      phoneValidate ("0501234567".data) = .ok ("0501234567".data) ∧
      fieldStr ("0501234567".data) = ("0501234567".data)) ∧
    (¬(("0501234567".data).length = 10 ∧ ("0501234567".data).all pyIsDigit = true) →
      phoneValidate ("0501234567".data) = .error .invalidPhone) :=
  C3_phone_validation ("0501234567".data)

/-- Counterexample to C3 as stated: ten Arabic-Indic digits (U+0662) are
not ASCII digits, yet `Phone` accepts the string because Python's
`str.isdigit` is Unicode-aware. -/
theorem C3_counterexample :
    phoneValidate (List.replicate 10 (Char.ofNat 0x662))
      = .ok (List.replicate 10 (Char.ofNat 0x662)) ∧
    (List.replicate 10 (Char.ofNat 0x662)).all isAsciiDigit = false := by
  refine ⟨by decide, by decide⟩

-- ### Claim C2: phone-list uniqueness

lemma phoneValidate_ok {p v : Str} (h : phoneValidate p = .ok v) : v = p := by
  rw [phoneValidate] at h
  by_cases hc : (p.all pyIsDigit && p.length == 10) = true
  · rw [if_pos hc] at h
    cases h
    rfl
  · rw [if_neg hc] at h
    exact Except.noConfusion h

lemma findPhone_none_not_mem {r : Record} {p : Str}
    (h : findPhone r p = none) : p ∉ r.phones := by
  intro hm
  rw [findPhone, List.find?_eq_none] at h
  exact h p hm (by simp)

lemma addPhone_nodup {r : Record} {p : Str} {r' : Record}
    (h : addPhone r p = .ok r') (hn : r.phones.Nodup) : r'.phones.Nodup := by
  rw [addPhone] at h
  cases hf : findPhone r p with
  | some q =>
    rw [hf] at h
    cases h
    exact hn
  | none =>
    rw [hf] at h
    cases hv : phoneValidate p with
    | error e => rw [hv] at h; exact Except.noConfusion h
    | ok v =>
      rw [hv] at h
      cases h
      have hvp : v = p := phoneValidate_ok hv
      subst hvp
      rw [List.nodup_append]
      refine ⟨hn, List.nodup_singleton v, ?_⟩
      intro a ha hb
      rw [List.mem_singleton] at hb
      subst hb
      exact findPhone_none_not_mem hf ha

lemma removeFirst_sublist (l : List Str) (x : Str) :
    List.Sublist (removeFirst l x) l := by
  induction l with
  | nil => exact List.Sublist.refl []
  | cons a t ih =>
    rw [removeFirst]
    by_cases h : (a == x) = true
    · rw [if_pos h]
      exact List.sublist_cons_self a t
    · rw [if_neg h]
      exact List.Sublist.cons₂ a ih

lemma deletePhone_nodup {r : Record} {p : Str} {r' : Record}
    (h : deletePhone r p = .ok r') (hn : r.phones.Nodup) : r'.phones.Nodup := by
  rw [deletePhone] at h
  cases hf : findPhone r p with
  | none => rw [hf] at h; exact Except.noConfusion h
  | some q =>
    rw [hf] at h
    cases h
    exact List.Nodup.sublist (removeFirst_sublist r.phones p) hn

lemma applyPhoneOp_nodup {r : Record} {op : PhoneOp}
    (hop : op.isEdit = false) (hn : r.phones.Nodup) :
    (applyPhoneOp r op).phones.Nodup := by
  cases op with
  | add p =>
    rw [applyPhoneOp]
    cases h : addPhone r p with
    | ok r' => exact addPhone_nodup h hn
    | error e => exact hn
  | edit old new => exact absurd hop (by rw [PhoneOp.isEdit]; simp)
  | del p =>
    rw [applyPhoneOp]
    cases h : deletePhone r p with
    | ok r' => exact deletePhone_nodup h hn
    | error e => exact hn

lemma applyPhoneOps_nodup {r : Record} {ops : List PhoneOp}
    (hops : ∀ op ∈ ops, op.isEdit = false) (hn : r.phones.Nodup) :
    (applyPhoneOps r ops).phones.Nodup := by
  induction ops generalizing r with
  | nil => exact hn
  | cons op rest ih =>
    rw [applyPhoneOps, List.foldl_cons]
    exact ih (fun o ho => hops o (by simp [ho]))
      (applyPhoneOp_nodup (hops op (by simp)) hn)

/-- C2 (amended): from creation onward, `add_phone` and `delete_phone`
never create an exact-string duplicate in the phone list, and `add_phone`
is idempotent (a second add of the same number leaves the list at
length 1); `edit_phone`, however, performs no duplicate check, so a
sequence containing an edit to an already-present number can create a
duplicate (see the counterexample). -/
theorem C2_phone_uniqueness (name : Str) (r0 : Record)
    (hinit : recordInit name = .ok r0) :
    (∀ ops : List PhoneOp, (∀ op ∈ ops, op.isEdit = false) →
      (applyPhoneOps r0 ops).phones.Nodup) ∧
    (∀ p r1, addPhone r0 p = .ok r1 →
      r1.phones.length = 1 ∧ addPhone r1 p = .ok r1) := by
  have hempty : r0.phones = [] := (recordInit_fields hinit).2
  constructor
  · intro ops hops
    exact applyPhoneOps_nodup hops (by rw [hempty]; exact List.nodup_nil)
  · intro p r1 hadd
    rw [addPhone] at hadd
    have hfind : findPhone r0 p = none := by
      rw [findPhone, hempty]
      rfl
    rw [hfind] at hadd
    cases hv : phoneValidate p with
    | error e => rw [hv] at hadd; exact Except.noConfusion hadd
    | ok v =>
      rw [hv] at hadd
      cases hadd
      have hvp : v = p := phoneValidate_ok hv
      constructor
      · rw [hempty]
        rfl
      · rw [addPhone]
        have : findPhone { r0 with phones := r0.phones ++ [v] } p = some v := by
          rw [findPhone, hempty, hvp]
          simp [List.find?]
        rw [this]

/-- Witness for C2 (amended) on a concrete record and operation list. -/
theorem C2_phone_uniqueness_witness :
    (∀ ops : List PhoneOp, (∀ op ∈ ops, op.isEdit = false) →
      (applyPhoneOps ⟨("Bob".data), [], none, none, none⟩ ops).phones.Nodup) ∧
    (∀ p r1, addPhone ⟨("Bob".data), [], none, none, none⟩ p = .ok r1 →
      r1.phones.length = 1 ∧ addPhone r1 p = .ok r1) :=
  C2_phone_uniqueness ("Bob".data) ⟨("Bob".data), [], none, none, none⟩ (by decide)

/-- Counterexample to C2 as stated: starting from a fresh record,
`add_phone` twice with distinct numbers and then `edit_phone` rewriting
the first number to the second leaves the phone list with an exact-string
duplicate. -/
theorem C2_counterexample :
    recordInit ("Bob".data) = .ok ⟨("Bob".data), [], none, none, none⟩ ∧
    (applyPhoneOps ⟨("Bob".data), [], none, none, none⟩
        [.add ("1111111111".data), .add ("2222222222".data),
         .edit ("1111111111".data) ("2222222222".data)]).phones
      = [("2222222222".data), ("2222222222".data)] ∧
    ¬ (applyPhoneOps ⟨("Bob".data), [], none, none, none⟩
        [.add ("1111111111".data), .add ("2222222222".data),
         .edit ("1111111111".data) ("2222222222".data)]).phones.Nodup := by
  refine ⟨by decide, by decide, by decide⟩

-- ### Claim C9: batch tag application is not atomic

/-- The note state after applying the (valid) tags of a batch in order. -/
def applyCleanTags (n : Note) (pre : List Str) : Note :=
  pre.foldl (fun m t => { m with tags := insertTag m.tags (cleanTag t) }) n

lemma mem_insertTag_of_mem {ts : List Str} {x : Str} (y : Str) (h : x ∈ ts) :
    x ∈ insertTag ts y := by
  rw [insertTag]
  by_cases hm : y ∈ ts
  · rw [if_pos hm]; exact h
  · rw [if_neg hm]; exact List.mem_append_left _ h

lemma mem_tags_applyCleanTags {n : Note} {x : Str} (pre : List Str)
    (h : x ∈ n.tags) : x ∈ (applyCleanTags n pre).tags := by
  induction pre generalizing n with
  | nil => exact h
  | cons t rest ih =>
    rw [applyCleanTags, List.foldl_cons]
    exact ih (mem_insertTag_of_mem (cleanTag t) h)

lemma mem_applyCleanTags {pre : List Str} {t : Str} (n : Note) (h : t ∈ pre) :
    cleanTag t ∈ (applyCleanTags n pre).tags := by
  induction pre generalizing n with
  | nil => cases h
  | cons a rest ih =>
    rw [applyCleanTags, List.foldl_cons]
    rcases List.mem_cons.mp h with rfl | hr
    · exact mem_tags_applyCleanTags rest (mem_insertTag n.tags (cleanTag t))
    · exact ih _ hr

lemma addTagsLoop_error (n : Note) (pre : List Str) (bad : Str) (rest : List Str)
    (hpre : ∀ t ∈ pre, ¬(cleanTag t = [] ∨ ' ' ∈ cleanTag t))
    (hbad : cleanTag bad = [] ∨ ' ' ∈ cleanTag bad) :
    addTagsLoop n (pre ++ bad :: rest) = (.error .invalidTag, applyCleanTags n pre) := by
  induction pre generalizing n with
  | nil =>
    rw [List.nil_append, addTagsLoop, noteAddTag, if_pos hbad]
    rfl
  | cons t rest' ih =>
    have hstep : noteAddTag n t = .ok { n with tags := insertTag n.tags (cleanTag t) } := by
      rw [noteAddTag, if_neg (hpre t (by simp))]
    rw [List.cons_append, addTagsLoop, hstep]
    show addTagsLoop { n with tags := insertTag n.tags (cleanTag t) } (rest' ++ bad :: rest)
        = (Except.error PErr.invalidTag, applyCleanTags n (t :: rest'))
    rw [ih _ (fun u hu => hpre u (by simp [hu]))]
    rfl

/-- C9: batch tag application is not atomic: when the note is absent the
whole call fails with `NoteNotFoundError` and the book is unchanged; when
the note is present and the batch is a valid prefix followed by a first
invalid tag, the call fails with `InvalidTagFormatError` while every
valid tag preceding the invalid one has already been added to the stored
note's tag set and remains there. -/
theorem C9_batch_tags_not_atomic (book : NoteBook) (title : Str) (tags : List Str) :
    (findNoteById book title = none →
      addTagToNote book title tags = (.error .noteNotFound, book)) ∧
    (∀ n pre bad rest, findNoteById book title = some n →
      tags = pre ++ bad :: rest →
      (∀ t ∈ pre, ¬(cleanTag t = [] ∨ ' ' ∈ cleanTag t)) →
      (cleanTag bad = [] ∨ ' ' ∈ cleanTag bad) →
      addTagToNote book title tags
        = (.error .invalidTag,
            dictInsert book (nbKey title) (applyCleanTags n pre)) ∧
      (∀ t ∈ pre, cleanTag t ∈ (applyCleanTags n pre).tags) ∧
      dictLookup (dictInsert book (nbKey title) (applyCleanTags n pre)) (nbKey title)
        = some (applyCleanTags n pre)) := by
  constructor
  · intro h
    rw [addTagToNote, h]
  · intro n pre bad rest hfind htags hpre hbad
    subst htags
    refine ⟨?_, fun t ht => mem_applyCleanTags n ht, ?_⟩
    · have hloop := addTagsLoop_error n pre bad rest hpre hbad
      rw [addTagToNote, hfind]
      show ((addTagsLoop n (pre ++ bad :: rest)).1,
          dictInsert book (nbKey title) (addTagsLoop n (pre ++ bad :: rest)).2)
        = (.error .invalidTag, dictInsert book (nbKey title) (applyCleanTags n pre))
      rw [hloop]
    · exact dictLookup_insert_self book (nbKey title) (applyCleanTags n pre)

/-- Witness for C9: a one-note book, batch `["ok1", " ", "x"]` whose
second tag normalizes to the empty string. -/
theorem C9_batch_tags_not_atomic_witness :
    (findNoteById [((("plan".data)), ⟨("Plan".data), ("c".data), []⟩)] ("Plan".data) = none →
      addTagToNote [((("plan".data)), ⟨("Plan".data), ("c".data), []⟩)] ("Plan".data)
          [("ok1".data), (" ".data), ("x".data)]
        = (.error .noteNotFound, [((("plan".data)), ⟨("Plan".data), ("c".data), []⟩)])) ∧
    (∀ n pre bad rest,
      findNoteById [((("plan".data)), ⟨("Plan".data), ("c".data), []⟩)] ("Plan".data) = some n →
      [("ok1".data), (" ".data), ("x".data)] = pre ++ bad :: rest →
      (∀ t ∈ pre, ¬(cleanTag t = [] ∨ ' ' ∈ cleanTag t)) →
      (cleanTag bad = [] ∨ ' ' ∈ cleanTag bad) →
      addTagToNote [((("plan".data)), ⟨("Plan".data), ("c".data), []⟩)] ("Plan".data)
          [("ok1".data), (" ".data), ("x".data)]
        = (.error .invalidTag,
            dictInsert [((("plan".data)), ⟨("Plan".data), ("c".data), []⟩)]
              (nbKey ("Plan".data)) (applyCleanTags n pre)) ∧
      (∀ t ∈ pre, cleanTag t ∈ (applyCleanTags n pre).tags) ∧
      dictLookup
          (dictInsert [((("plan".data)), ⟨("Plan".data), ("c".data), []⟩)]
            (nbKey ("Plan".data)) (applyCleanTags n pre))
          (nbKey ("Plan".data))
        = some (applyCleanTags n pre)) :=
  C9_batch_tags_not_atomic [((("plan".data)), ⟨("Plan".data), ("c".data), []⟩)]
    ("Plan".data) [("ok1".data), (" ".data), ("x".data)]

-- ### Helper lemmas: decimal digits and formatting

lemma digitChar_toNat {k : Nat} (h : k < 10) : (digitChar k).toNat = 48 + k := by
  interval_cases k <;> decide

lemma isAsciiDigit_digitChar {k : Nat} (h : k < 10) :
    isAsciiDigit (digitChar k) = true := by
  interval_cases k <;> decide

lemma natDigitsAux_all : ∀ (f n : Nat), n < f →
    (natDigitsAux f n).all isAsciiDigit = true := by
  intro f
  induction f with
  | zero => intro n h; exact absurd h (Nat.not_lt_zero n)
  | succ f ih =>
    intro n h
    rw [natDigitsAux]
    by_cases h10 : n < 10
    · rw [if_pos h10]
      simp [isAsciiDigit_digitChar h10]
    · rw [if_neg h10, List.all_append]
      have hdiv : n / 10 < f := by
        have := Nat.div_lt_self (by omega : 0 < n) (by omega : 1 < 10)
        omega
      rw [ih (n / 10) hdiv]
      simp [isAsciiDigit_digitChar (Nat.mod_lt n (by omega) : n % 10 < 10)]

lemma natDigitsAux_ne_nil : ∀ (f n : Nat), n < f → natDigitsAux f n ≠ [] := by
  intro f
  induction f with
  | zero => intro n h; exact absurd h (Nat.not_lt_zero n)
  | succ f _ =>
    intro n _
    rw [natDigitsAux]
    by_cases h10 : n < 10
    · rw [if_pos h10]; simp
    · rw [if_neg h10]; simp

lemma digitsToNat_append (s t : Str) :
    digitsToNat (s ++ t) = t.foldl (fun a c => a * 10 + (c.toNat - 48)) (digitsToNat s) := by
  rw [digitsToNat, digitsToNat, List.foldl_append]

lemma digitsToNat_natDigitsAux : ∀ (f n : Nat), n < f →
    digitsToNat (natDigitsAux f n) = n := by
  intro f
  induction f with
  | zero => intro n h; exact absurd h (Nat.not_lt_zero n)
  | succ f ih =>
    intro n h
    rw [natDigitsAux]
    by_cases h10 : n < 10
    · rw [if_pos h10]
      show 0 * 10 + ((digitChar n).toNat - 48) = n
      rw [digitChar_toNat h10]
      omega
    · rw [if_neg h10, digitsToNat_append]
      have hdiv : n / 10 < f := by
        have := Nat.div_lt_self (by omega : 0 < n) (by omega : 1 < 10)
        omega
      rw [ih (n / 10) hdiv]
      show n / 10 * 10 + ((digitChar (n % 10)).toNat - 48) = n
      rw [digitChar_toNat (Nat.mod_lt n (by omega) : n % 10 < 10)]
      omega

lemma natDigitsAux_length_le : ∀ (f n k : Nat), n < f → 1 ≤ k → n < 10 ^ k →
    (natDigitsAux f n).length ≤ k := by
  intro f
  induction f with
  | zero => intro n k h; exact absurd h (Nat.not_lt_zero n)
  | succ f ih =>
    intro n k h hk hpow
    rw [natDigitsAux]
    by_cases h10 : n < 10
    · rw [if_pos h10]
      simpa using hk
    · rw [if_neg h10, List.length_append]
      have hdiv : n / 10 < f := by
        have := Nat.div_lt_self (by omega : 0 < n) (by omega : 1 < 10)
        omega
      have hk2 : 2 ≤ k := by
        by_contra hlt
        have hk1 : k = 1 := by omega
        rw [hk1, pow_one] at hpow
        exact h10 hpow
      have hdivpow : n / 10 < 10 ^ (k - 1) := by
        rw [Nat.div_lt_iff_lt_mul (by omega : 0 < 10)]
        calc n < 10 ^ k := hpow
        _ = 10 ^ (k - 1) * 10 := by
              rw [← pow_succ]
              congr 1
              omega
      have := ih (n / 10) (k - 1) hdiv (by omega) hdivpow
      simp only [List.length_singleton]
      omega

lemma natDigits_all (n : Nat) : (natDigits n).all isAsciiDigit = true :=
  natDigitsAux_all (n + 1) n (Nat.lt_succ_self n)

lemma natDigits_ne_nil (n : Nat) : natDigits n ≠ [] :=
  natDigitsAux_ne_nil (n + 1) n (Nat.lt_succ_self n)

lemma digitsToNat_natDigits (n : Nat) : digitsToNat (natDigits n) = n :=
  digitsToNat_natDigitsAux (n + 1) n (Nat.lt_succ_self n)

lemma natDigits_length_le {n k : Nat} (hk : 1 ≤ k) (h : n < 10 ^ k) :
    (natDigits n).length ≤ k :=
  natDigitsAux_length_le (n + 1) n k (Nat.lt_succ_self n) hk h

lemma padZero_all {w : Nat} {s : Str} (h : s.all isAsciiDigit = true) :
    (padZero w s).all isAsciiDigit = true := by
  rw [padZero, List.all_append, h]
  have : (List.replicate (w - s.length) '0').all isAsciiDigit = true := by
    rw [List.all_eq_true]
    intro c hc
    rw [List.eq_of_mem_replicate hc]
    decide
  rw [this]
  rfl

lemma digitsToNat_padZero (w : Nat) (s : Str) :
    digitsToNat (padZero w s) = digitsToNat s := by
  rw [padZero]
  have hz : ∀ k : Nat, digitsToNat (List.replicate k '0') = 0 := by
    intro k
    induction k with
    | zero => rfl
    | succ k ih =>
      rw [List.replicate_succ]
      show List.foldl _ ((0 : Nat) * 10 + ('0'.toNat - 48)) _ = 0
      simpa [digitsToNat] using ih
  rw [digitsToNat_append, hz]
  rfl

lemma padZero_length {w : Nat} {s : Str} (h : s.length ≤ w) :
    (padZero w s).length = w := by
  rw [padZero, List.length_append, List.length_replicate]
  omega

-- ### Helper lemmas: splitting a formatted date back into digit runs

lemma takeWhile_all_of_all {p : Char → Bool} : ∀ {a : Str}, a.all p = true →
    a.takeWhile p = a ∧ a.dropWhile p = [] := by
  intro a
  induction a with
  | nil => intro _; exact ⟨rfl, rfl⟩
  | cons x t ih =>
    intro h
    rw [List.all_cons, Bool.and_eq_true] at h
    have ht := ih h.2
    rw [List.takeWhile_cons, List.dropWhile_cons]
    rw [if_pos h.1, if_pos h.1, ht.1]
    exact ⟨rfl, ht.2⟩

lemma takeWhile_append_cons {p : Char → Bool} {c : Char} (hc : p c = false) :
    ∀ {a : Str} (b : Str), a.all p = true →
      (a ++ c :: b).takeWhile p = a ∧ (a ++ c :: b).dropWhile p = c :: b := by
  intro a
  induction a with
  | nil =>
    intro b _
    rw [List.nil_append, List.takeWhile_cons, List.dropWhile_cons]
    rw [if_neg (by simp [hc]), if_neg (by simp [hc])]
    exact ⟨rfl, rfl⟩
  | cons x t ih =>
    intro b h
    rw [List.all_cons, Bool.and_eq_true] at h
    have ht := ih b h.2
    rw [List.cons_append, List.takeWhile_cons, List.dropWhile_cons]
    rw [if_pos h.1, if_pos h.1, ht.1, ht.2]
    exact ⟨rfl, rfl⟩

lemma daysInMonth_le_31 (y m : Nat) : daysInMonth y m ≤ 31 := by
  rcases Nat.lt_or_ge m 13 with h | h
  · interval_cases m <;> by_cases hl : isLeap y = true <;> simp [daysInMonth, hl]
  · have hb : ∀ k : Nat, k < 13 → (m == k) = false := by
      intro k hk
      exact beq_eq_false_iff_ne.mpr (by omega)
    simp [daysInMonth, hb 1 (by omega), hb 2 (by omega), hb 3 (by omega),
      hb 4 (by omega), hb 5 (by omega), hb 6 (by omega), hb 7 (by omega),
      hb 8 (by omega), hb 9 (by omega), hb 10 (by omega), hb 11 (by omega),
      hb 12 (by omega)]

lemma isValidDate_bounds {dt : PyDate} (h : isValidDate dt = true) :
    1 ≤ dt.y ∧ dt.y ≤ 9999 ∧ 1 ≤ dt.m ∧ dt.m ≤ 12 ∧ 1 ≤ dt.d ∧ dt.d ≤ 31 := by
  rw [isValidDate] at h
  simp only [Bool.and_eq_true, decide_eq_true_eq] at h
  have := daysInMonth_le_31 dt.y dt.m
  omega

/-- Parsing a `strftime("%d.%m.%Y")` rendering of a valid date recovers
the date (the round trip behind `Birthday`'s display format). -/
lemma strptimeDMY_formatDMY {dt : PyDate} (h : isValidDate dt = true) :
    strptimeDMY (formatDMY dt) = some dt := by
  obtain ⟨hy1, hy2, hm1, hm2, hd1, hd2⟩ := isValidDate_bounds h
  have hDall : (padZero 2 (natDigits dt.d)).all isAsciiDigit = true :=
    padZero_all (natDigits_all dt.d)
  have hMall : (padZero 2 (natDigits dt.m)).all isAsciiDigit = true :=
    padZero_all (natDigits_all dt.m)
  have hYall : (padZero 4 (natDigits dt.y)).all isAsciiDigit = true :=
    padZero_all (natDigits_all dt.y)
  have hDlen : (padZero 2 (natDigits dt.d)).length = 2 :=
    padZero_length (natDigits_length_le (by omega) (by omega : dt.d < 10 ^ 2))
  have hMlen : (padZero 2 (natDigits dt.m)).length = 2 :=
    padZero_length (natDigits_length_le (by omega) (by omega : dt.m < 10 ^ 2))
  have hYlen : (padZero 4 (natDigits dt.y)).length = 4 :=
    padZero_length (natDigits_length_le (by omega) (by omega : dt.y < 10 ^ 4))
  have hD : digitsToNat (padZero 2 (natDigits dt.d)) = dt.d := by
    rw [digitsToNat_padZero, digitsToNat_natDigits]
  have hM : digitsToNat (padZero 2 (natDigits dt.m)) = dt.m := by
    rw [digitsToNat_padZero, digitsToNat_natDigits]
  have hY : digitsToNat (padZero 4 (natDigits dt.y)) = dt.y := by
    rw [digitsToNat_padZero, digitsToNat_natDigits]
  have hshape : formatDMY dt
      = padZero 2 (natDigits dt.d)
        ++ '.' :: (padZero 2 (natDigits dt.m) ++ '.' :: padZero 4 (natDigits dt.y)) := by
    rw [formatDMY]
    simp [List.append_assoc]
  have hdot : isAsciiDigit '.' = false := by decide
  have hsplit1 := takeWhile_append_cons hdot
    (padZero 2 (natDigits dt.m) ++ '.' :: padZero 4 (natDigits dt.y)) hDall
  have hsplit2 := takeWhile_append_cons hdot (padZero 4 (natDigits dt.y)) hMall
  have hsplit3 := takeWhile_all_of_all hYall
  rw [strptimeDMY, hshape]
  rw [hsplit1.1, hsplit1.2]
  simp only [beq_self_eq_true, if_true]
  rw [hsplit2.1, hsplit2.2]
  simp only [beq_self_eq_true, if_true]
  rw [hsplit3.1, hsplit3.2]
  rw [if_pos, if_pos]
  · rw [hD, hM, hY]
  · rw [hD, hM, hY]
    simp only [Bool.and_eq_true, decide_eq_true_eq]
    refine ⟨⟨⟨⟨by omega, by omega⟩, by omega⟩, by omega⟩, h⟩
  · rw [hDlen, hMlen, hYlen]
    decide

-- ### Claim C4: birthday validation

lemma isPySpace_false_of_digit {c : Char} (h : isAsciiDigit c = true) :
    isPySpace c = false := by
  have h48 : 48 ≤ c.toNat ∧ c.toNat ≤ 57 := by
    simpa [isAsciiDigit] using h
  simp only [isPySpace, Bool.or_eq_false_iff]
  refine ⟨⟨⟨⟨⟨?_, ?_⟩, ?_⟩, ?_⟩, ?_⟩, ?_⟩ <;>
    exact beq_eq_false_iff_ne.mpr (by omega)

lemma formatDMY_nonspace (dt : PyDate) :
    ∀ c ∈ formatDMY dt, isPySpace c = false := by
  intro c hc
  rw [formatDMY] at hc
  simp only [List.mem_append, List.mem_singleton] at hc
  have hdig : ∀ {w n : Nat}, c ∈ padZero w (natDigits n) → isPySpace c = false := by
    intro w n hmem
    have hall := padZero_all (w := w) (natDigits_all n)
    rw [List.all_eq_true] at hall
    exact isPySpace_false_of_digit (hall c hmem)
  rcases hc with ((((h | h) | h) | h) | h)
  · exact hdig h
  · rw [h]; decide
  · exact hdig h
  · rw [h]; decide
  · exact hdig h

lemma formatDMY_ne_nil (dt : PyDate) : formatDMY dt ≠ [] := by
  have hmem : ('.' : Char) ∈ formatDMY dt := by
    rw [formatDMY]
    simp
  intro hnil
  rw [hnil] at hmem
  cases hmem

/-- C4 (amended): constructing a `Birthday` from a valid date rendered as
`DD.MM.YYYY` fails with `InvalidBirthdayFormatError` when the date is
strictly after today, and succeeds with a faithful `DD.MM.YYYY` round trip
otherwise; the absent value and the exactly-empty string are accepted as
the unset state, but a whitespace-only (blank but nonempty) input is
rejected with `InvalidBirthdayFormatError` (see the counterexample). -/
theorem C4_birthday_validation (today dt : PyDate) (hdt : isValidDate dt = true) :
    (dateLt today dt = true →
      birthdayValidate today (some (formatDMY dt)) = .error .invalidBirthday) ∧
    (dateLt today dt = false →
      birthdayValidate today (some (formatDMY dt)) = .ok (some dt) ∧
      birthdayStr (some dt) = formatDMY dt) ∧
    birthdayValidate today none = .ok none ∧
    birthdayValidate today (some []) = .ok none := by
  have hne : formatDMY dt ≠ [] := formatDMY_ne_nil dt
  have hstrip : pyStrip (formatDMY dt) = formatDMY dt :=
    pyStrip_of_all_nonspace (formatDMY_nonspace dt)
  have hparse : strptimeDMY (pyStrip (formatDMY dt)) = some dt := by
    rw [hstrip]
    exact strptimeDMY_formatDMY hdt
  refine ⟨?_, ?_, rfl, rfl⟩
  · intro hlt
    rw [birthdayValidate, if_neg hne, hparse]
    show (if dateLt today dt = true then Except.error PErr.invalidBirthday
      else Except.ok (some dt)) = Except.error PErr.invalidBirthday
    rw [if_pos hlt]
  · intro hge
    constructor
    · rw [birthdayValidate, if_neg hne, hparse]
      show (if dateLt today dt = true then Except.error PErr.invalidBirthday
        else Except.ok (some dt)) = Except.ok (some dt)
      rw [if_neg (by rw [hge]; exact Bool.false_ne_true)]
    · rfl

/-- Witness for C4: today 2025-10-12, birthday 2024-05-01 (valid, in the
past: accepted and round-trips; its future-dated projection is refused). -/
theorem C4_birthday_validation_witness :
    (dateLt ⟨2025, 10, 12⟩ ⟨2024, 5, 1⟩ = true →
      birthdayValidate ⟨2025, 10, 12⟩ (some (formatDMY ⟨2024, 5, 1⟩))
        = .error .invalidBirthday) ∧
    (dateLt ⟨2025, 10, 12⟩ ⟨2024, 5, 1⟩ = false →
      birthdayValidate ⟨2025, 10, 12⟩ (some (formatDMY ⟨2024, 5, 1⟩))
        = .ok (some ⟨2024, 5, 1⟩) ∧
      birthdayStr (some ⟨2024, 5, 1⟩) = formatDMY ⟨2024, 5, 1⟩) ∧
    birthdayValidate ⟨2025, 10, 12⟩ none = .ok none ∧
    birthdayValidate ⟨2025, 10, 12⟩ (some []) = .ok none :=
  C4_birthday_validation ⟨2025, 10, 12⟩ ⟨2024, 5, 1⟩ (by decide)

/-- Counterexample to C4 as stated: a whitespace-only (blank) input is not
accepted as the unset state — `value == \x22\x22` is false for `" "`, so the
code strips it inside `strptime`, which then fails, and the constructor
raises `InvalidBirthdayFormatError`. -/
theorem C4_counterexample :
    (∀ c ∈ (" ".data), isPySpace c = true) ∧
    birthdayValidate ⟨2025, 10, 12⟩ (some (" ".data)) = .error .invalidBirthday := by
  refine ⟨by decide, by decide⟩

-- ### Claim C10: Feb 29 birthdays crash the year projection

/-- C10 fails on the code: a birthday of 1996-02-29 is validly
constructible (here: accepted by the `Birthday` validator), yet with
today = 2025-03-01 the projection `birthday.replace(year=2025)` raises
`ValueError` (2025 is not a leap year), which escapes
`get_upcoming_birthdays` instead of a normal return. -/
theorem C10_feb29_crash :
    birthdayValidate ⟨2025, 3, 1⟩ (some ("29.02.1996".data))
      = .ok (some ⟨1996, 2, 29⟩) ∧
    replaceYear ⟨1996, 2, 29⟩ 2025 = none ∧
    getUpcomingBirthdays
        [(abKey ("Leon".data), ⟨("Leon".data), [], some (some ⟨1996, 2, 29⟩), none, none⟩)]
        7 ⟨2025, 3, 1⟩
      = .error .valueError := by
  refine ⟨by decide, by decide, by decide⟩

-- ### Claim C1: the upcoming-birthday report

/-- One record's contribution to the report, as the specification states
it: a record with a set birthday whose year projection (current year, or
next year when the current-year projection is strictly before today) has
day-delta in `[0, days]` contributes its name and the weekend-rolled
display date; other records contribute nothing. -/
def upcomingEntry (today : PyDate) (days : Int) (r : Record) : Option (Str × PyDate) :=
  (bdayVal r).bind fun b =>
    (birthdayProjection today b).bind fun p =>
      if 0 ≤ (toOrdinal p : Int) - (toOrdinal today : Int)
          ∧ (toOrdinal p : Int) - (toOrdinal today : Int) ≤ days
      then some (fieldStr r.name, rolloverDate p) else none

/-- Newline-joined rendering of the report lines (the claim's
"'<name>: <DD.MM.YYYY>' lines"). -/
def joinLinesNL : List Str → Str
  | [] => []
  | [x] => x
  | x :: y :: rest => x ++ '\n' :: joinLinesNL (y :: rest)

lemma collectUpcoming_eq_filterMap (today : PyDate) (days : Int) :
    ∀ rs : List Record,
      (∀ r ∈ rs, ((bdayVal r).all fun b => (birthdayProjection today b).isSome) = true) →
      collectUpcoming today days rs = .ok (rs.filterMap (upcomingEntry today days)) := by
  intro rs
  induction rs with
  | nil => intro _; rfl
  | cons r rest ih =>
    intro h
    have hrest := ih (fun x hx => h x (by simp [hx]))
    cases hb : bdayVal r with
    | none =>
      simp only [collectUpcoming, hb, List.filterMap_cons, upcomingEntry,
        Option.none_bind]
      exact hrest
    | some b =>
      cases hp : birthdayProjection today b with
      | none =>
        have := h r (by simp)
        rw [hb, Option.all_some, hp] at this
        exact absurd this (by simp)
      | some p =>
        simp only [collectUpcoming, hb, hp, List.filterMap_cons, upcomingEntry,
          Option.some_bind]
        by_cases hcond : 0 ≤ (toOrdinal p : Int) - (toOrdinal today : Int)
            ∧ (toOrdinal p : Int) - (toOrdinal today : Int) ≤ days
        · rw [if_pos hcond, if_pos hcond, hrest]
          rfl
        · rw [if_neg hcond, if_neg hcond]
          exact hrest

instance : IsTotal (Str × PyDate) keyLe :=
  ⟨fun a b => Nat.le_total (toOrdinal a.2) (toOrdinal b.2)⟩

instance : IsTrans (Str × PyDate) keyLe :=
  ⟨fun _ _ _ hab hbc => Nat.le_trans hab hbc⟩

lemma sortUpcoming_sorted (l : List (Str × PyDate)) :
    (sortUpcoming l).Pairwise keyLe := by
  rw [sortUpcoming]
  exact List.sorted_insertionSort keyLe l

lemma sortUpcoming_perm (l : List (Str × PyDate)) : (sortUpcoming l).Perm l := by
  rw [sortUpcoming]
  exact List.perm_insertionSort keyLe l

-- ### Rendering of the report

lemma flatten_map_newline : ∀ xs : List Str, xs ≠ [] →
    (xs.map (fun x => x ++ ['\n'])).flatten = joinLinesNL xs ++ ['\n'] := by
  intro xs
  induction xs with
  | nil => intro h; exact absurd rfl h
  | cons x t ih =>
    intro _
    cases t with
    | nil => simp [joinLinesNL]
    | cons y t' =>
      rw [List.map_cons, List.flatten_cons, ih (by simp), joinLinesNL]
      rw [← List.append_assoc]
      rw [List.append_cons x '\n' (joinLinesNL (y :: t'))]

lemma pyStripR_append_space (c : Char) (hc : isPySpace c = true) :
    ∀ x : Str, pyStripR (x ++ [c]) = pyStripR x := by
  intro x
  induction x with
  | nil =>
    show pyStripR [c] = pyStripR []
    simp [pyStripR, hc]
  | cons a t ih =>
    rw [List.cons_append]
    show (if pyStripR (t ++ [c]) = [] && isPySpace a then []
      else a :: pyStripR (t ++ [c])) = pyStripR (a :: t)
    rw [ih]
    rfl

lemma pyStripR_append_nonspace (c : Char) (hc : isPySpace c = false) :
    ∀ x : Str, pyStripR (x ++ [c]) = x ++ [c] := by
  intro x
  induction x with
  | nil =>
    show pyStripR [c] = [c]
    simp [pyStripR, hc]
  | cons a t ih =>
    rw [List.cons_append]
    show (if pyStripR (t ++ [c]) = [] && isPySpace a then []
      else a :: pyStripR (t ++ [c])) = a :: (t ++ [c])
    rw [ih]
    simp

lemma formatDMY_snoc_digit (dt : PyDate) :
    ∃ a : Str, ∃ c : Char, formatDMY dt = a ++ [c] ∧ isAsciiDigit c = true := by
  have hY : padZero 4 (natDigits dt.y) ≠ [] := by
    rw [padZero]
    intro hnil
    rcases List.append_eq_nil.mp hnil with ⟨_, h2⟩
    exact natDigits_ne_nil dt.y h2
  have hsnoc := List.dropLast_append_getLast hY
  have hdig : isAsciiDigit ((padZero 4 (natDigits dt.y)).getLast hY) = true := by
    have hall := padZero_all (w := 4) (natDigits_all dt.y)
    rw [List.all_eq_true] at hall
    exact hall _ (List.getLast_mem hY)
  refine ⟨padZero 2 (natDigits dt.d) ++ ['.'] ++ padZero 2 (natDigits dt.m)
      ++ ['.'] ++ (padZero 4 (natDigits dt.y)).dropLast,
    (padZero 4 (natDigits dt.y)).getLast hY, ?_, hdig⟩
  rw [formatDMY]
  conv_lhs => rw [← hsnoc]
  simp [List.append_assoc]

lemma upcomingLine_snoc_digit (e : Str × PyDate) :
    ∃ a : Str, ∃ c : Char, upcomingLine e = a ++ [c] ∧ isAsciiDigit c = true := by
  obtain ⟨a, c, hfmt, hdig⟩ := formatDMY_snoc_digit e.2
  refine ⟨e.1 ++ (": ".data) ++ a, c, ?_, hdig⟩
  rw [upcomingLine, hfmt]
  simp [List.append_assoc]

lemma joinLinesNL_snoc_digit : ∀ xs : List Str, xs ≠ [] →
    (∀ x ∈ xs, ∃ a : Str, ∃ c : Char, x = a ++ [c] ∧ isAsciiDigit c = true) →
    ∃ a : Str, ∃ c : Char, joinLinesNL xs = a ++ [c] ∧ isAsciiDigit c = true := by
  intro xs
  induction xs with
  | nil => intro h; exact absurd rfl h
  | cons x t ih =>
    intro _ hall
    cases t with
    | nil =>
      obtain ⟨a, c, hx, hc⟩ := hall x (by simp)
      exact ⟨a, c, by rw [joinLinesNL, hx], hc⟩
    | cons y t' =>
      obtain ⟨a, c, hj, hc⟩ := ih (by simp) (fun u hu => hall u (by simp [hu]))
      refine ⟨x ++ '\n' :: a, c, ?_, hc⟩
      rw [joinLinesNL, hj]
      rw [← List.cons_append, List.append_assoc]

lemma render_strip (up : List (Str × PyDate)) (h : up ≠ []) :
    pyStrip (("Upcoming birthdays:\n".data)
        ++ ((sortUpcoming up).map (fun e => upcomingLine e ++ ['\n'])).flatten)
      = ("Upcoming birthdays:\n".data)
        ++ joinLinesNL ((sortUpcoming up).map upcomingLine) := by
  have hsne : sortUpcoming up ≠ [] := by
    intro hnil
    have := (sortUpcoming_perm up).length_eq
    rw [hnil] at this
    exact h (List.eq_nil_of_length_eq_zero this.symm)
  have hlne : (sortUpcoming up).map upcomingLine ≠ [] := by
    simpa using hsne
  have hmap : (sortUpcoming up).map (fun e => upcomingLine e ++ ['\n'])
      = ((sortUpcoming up).map upcomingLine).map (fun x => x ++ ['\n']) := by
    rw [List.map_map]
    rfl
  obtain ⟨a, c, hj, hcd⟩ := joinLinesNL_snoc_digit ((sortUpcoming up).map upcomingLine)
    hlne (by
      intro x hx
      rcases List.mem_map.mp hx with ⟨e, _, hex⟩
      rw [← hex]
      exact upcomingLine_snoc_digit e)
  rw [hmap, flatten_map_newline _ hlne]
  have hheader : ("Upcoming birthdays:\n".data) = 'U' :: ("pcoming birthdays:\n".data) := rfl
  rw [pyStrip]
  rw [hheader, List.cons_append,
    pyStripL_cons_of_nonspace (by decide : isPySpace 'U' = false), ← List.cons_append,
    ← hheader]
  rw [← List.append_assoc]
  rw [pyStripR_append_space '\n' (by decide)]
  rw [hj, ← List.append_assoc]
  rw [pyStripR_append_nonspace c (isPySpace_false_of_digit hcd)]

lemma mem_upcomingEntry_iff (today : PyDate) (days : Int) (rs : List Record)
    (e : Str × PyDate) :
    e ∈ rs.filterMap (upcomingEntry today days) ↔ ∃ r ∈ rs, ∃ b p,
      bdayVal r = some b ∧ birthdayProjection today b = some p ∧
      0 ≤ (toOrdinal p : Int) - (toOrdinal today : Int) ∧
      (toOrdinal p : Int) - (toOrdinal today : Int) ≤ days ∧
      e = (fieldStr r.name, rolloverDate p) := by
  rw [List.mem_filterMap]
  constructor
  · rintro ⟨r, hr, hf⟩
    rw [upcomingEntry] at hf
    cases hb : bdayVal r with
    | none => rw [hb, Option.none_bind] at hf; exact absurd hf (by simp)
    | some b =>
      rw [hb, Option.some_bind] at hf
      cases hp : birthdayProjection today b with
      | none => rw [hp, Option.none_bind] at hf; exact absurd hf (by simp)
      | some p =>
        rw [hp, Option.some_bind] at hf
        by_cases hc : 0 ≤ (toOrdinal p : Int) - (toOrdinal today : Int)
            ∧ (toOrdinal p : Int) - (toOrdinal today : Int) ≤ days
        · rw [if_pos hc] at hf
          exact ⟨r, hr, b, p, hb, hp, hc.1, hc.2, (Option.some.inj hf).symm⟩
        · rw [if_neg hc] at hf
          exact absurd hf (by simp)
  · rintro ⟨r, hr, b, p, hb, hp, h0, hd, he⟩
    refine ⟨r, hr, ?_⟩
    rw [upcomingEntry, hb, Option.some_bind, hp, Option.some_bind,
      if_pos ⟨h0, hd⟩, he]

lemma except_map_ok {ε α β : Type} (f : α → β) (a : α) :
    Except.map f (.ok a : Except ε α) = .ok (f a) := rfl

/-- C1 (amended): provided every stored birthday's year projection exists
as a calendar date (which fails only for a Feb 29 birthday whose target
year is not a leap year — in that case the call raises `ValueError`, see
the counterexample), `get_upcoming_birthdays` collects exactly those
records with a set birthday whose projection onto the current year
(re-projected onto next year when strictly before today) has day-delta
from today in `[0, days]`, the delta computed from the pre-rollover
projected date; the entries carry the weekend-rolled display date
(Saturday ↦ +2 days, Sunday ↦ +1 day; rollover never affects inclusion),
are sorted ascending by that display date, and are rendered as
`"<name>: <DD.MM.YYYY>"` lines under a header — with a sentinel message
when no record qualifies. -/
theorem C1_upcoming_birthdays (book : AddressBook) (days : Int) (today : PyDate)
    (hdays : 0 ≤ days)
    (hproj : ∀ r ∈ book.map Prod.snd,
      ((bdayVal r).all fun b => (birthdayProjection today b).isSome) = true) :
    ∃ pairs : List (Str × PyDate),
      collectUpcoming today days (book.map Prod.snd) = .ok pairs ∧
      (∀ e : Str × PyDate, e ∈ pairs ↔ ∃ r ∈ book.map Prod.snd, ∃ b p,
        bdayVal r = some b ∧ birthdayProjection today b = some p ∧
        0 ≤ (toOrdinal p : Int) - (toOrdinal today : Int) ∧
        (toOrdinal p : Int) - (toOrdinal today : Int) ≤ days ∧
        e = (fieldStr r.name, rolloverDate p)) ∧
      (sortUpcoming pairs).Pairwise keyLe ∧
      (sortUpcoming pairs).Perm pairs ∧
      (pairs = [] → getUpcomingBirthdays book days today
        = .ok ("No upcoming birthdays.".data)) ∧
      (pairs ≠ [] → getUpcomingBirthdays book days today
        = .ok (("Upcoming birthdays:\n".data)
            ++ joinLinesNL ((sortUpcoming pairs).map upcomingLine))) := by
  have hcol := collectUpcoming_eq_filterMap today days (book.map Prod.snd) hproj
  refine ⟨(book.map Prod.snd).filterMap (upcomingEntry today days), hcol,
    fun e => mem_upcomingEntry_iff today days (book.map Prod.snd) e,
    sortUpcoming_sorted _, sortUpcoming_perm _, ?_, ?_⟩
  · intro hnil
    rw [getUpcomingBirthdays, hcol, except_map_ok, if_pos hnil]
  · intro hne
    rw [getUpcomingBirthdays, hcol, except_map_ok, if_neg hne,
      render_strip _ hne]

/-- Witness for C1 at a concrete two-record book (today 2025-10-12, a
Sunday; Anna's projected birthday 2025-10-18 is a Saturday). -/
theorem C1_upcoming_birthdays_witness :
    ∃ pairs : List (Str × PyDate),
      collectUpcoming ⟨2025, 10, 12⟩ 7
          (([(abKey ("Anna".data), ⟨("Anna".data), [], some (some ⟨1990, 10, 18⟩), none, none⟩),
             (abKey ("Bert".data), ⟨("Bert".data), [], some (some ⟨1980, 10, 12⟩), none, none⟩)]
            : AddressBook).map Prod.snd) = .ok pairs ∧
      (∀ e : Str × PyDate, e ∈ pairs ↔ ∃ r ∈
        ([(abKey ("Anna".data), ⟨("Anna".data), [], some (some ⟨1990, 10, 18⟩), none, none⟩),
          (abKey ("Bert".data), ⟨("Bert".data), [], some (some ⟨1980, 10, 12⟩), none, none⟩)]
          : AddressBook).map Prod.snd, ∃ b p,
        bdayVal r = some b ∧ birthdayProjection ⟨2025, 10, 12⟩ b = some p ∧
        0 ≤ (toOrdinal p : Int) - (toOrdinal ⟨2025, 10, 12⟩ : Int) ∧
        (toOrdinal p : Int) - (toOrdinal ⟨2025, 10, 12⟩ : Int) ≤ 7 ∧
        e = (fieldStr r.name, rolloverDate p)) ∧
      (sortUpcoming pairs).Pairwise keyLe ∧
      (sortUpcoming pairs).Perm pairs ∧
      (pairs = [] → getUpcomingBirthdays
          [(abKey ("Anna".data), ⟨("Anna".data), [], some (some ⟨1990, 10, 18⟩), none, none⟩),
           (abKey ("Bert".data), ⟨("Bert".data), [], some (some ⟨1980, 10, 12⟩), none, none⟩)]
          7 ⟨2025, 10, 12⟩
        = .ok ("No upcoming birthdays.".data)) ∧
      (pairs ≠ [] → getUpcomingBirthdays
          [(abKey ("Anna".data), ⟨("Anna".data), [], some (some ⟨1990, 10, 18⟩), none, none⟩),
           (abKey ("Bert".data), ⟨("Bert".data), [], some (some ⟨1980, 10, 12⟩), none, none⟩)]
          7 ⟨2025, 10, 12⟩
        = .ok (("Upcoming birthdays:\n".data)
            ++ joinLinesNL ((sortUpcoming pairs).map upcomingLine))) :=
  C1_upcoming_birthdays
    [(abKey ("Anna".data), ⟨("Anna".data), [], some (some ⟨1990, 10, 18⟩), none, none⟩),
     (abKey ("Bert".data), ⟨("Bert".data), [], some (some ⟨1980, 10, 12⟩), none, none⟩)]
    7 ⟨2025, 10, 12⟩ (by decide) (by decide)

/-- Counterexample to C1 as stated (quantifying over every address book
and today): with a stored Feb 29 birthday and a non-leap current year the
call raises `ValueError` instead of returning a report at all. -/
theorem C1_counterexample :
    getUpcomingBirthdays
        [(abKey ("Mark".data), ⟨("Mark".data), [], some (some ⟨2000, 2, 29⟩), none, none⟩)]
        7 ⟨2025, 6, 1⟩
      = .error .valueError := by decide
